import Mathlib

/-!
Verification of the core of `spotlightdl-go` (src/main.go), a minimal
Windows Spotlight wallpaper downloader: response parsing and filtering
(`fetchOnce`), per-batch deduplication (`dedupe`), atomic download with
size verification (`download`), file-name derivation (`fileNameFromURL`),
and the polling loop of `main`.

The embedding is shallow: Go string-library calls are modelled by
executable Lean functions over `List Char`; the filesystem is modelled as
an association list from paths to file sizes; HTTP responses are modelled
by an inductive carrying the status code, the declared content length and
the body outcome; the poll loop is modelled as a fuel-indexed recursion
whose `some` result corresponds to normal termination (process exit 0).
-/

set_option autoImplicit false

namespace SpotlightDL

/-! ## String helpers (models of the Go standard-library calls in src/main.go) -/

/-- Model of the whitespace class used by Go `strings.TrimSpace` (restricted
to the ASCII whitespace characters: space, tab, newline, carriage return). -/
def isSpaceChar (c : Char) : Bool :=
  c.toNat = 32 || c.toNat = 9 || c.toNat = 10 || c.toNat = 13

/-- Model of Go `strings.TrimSpace`: drop leading and trailing whitespace. -/
def goTrimSpace (s : String) : String :=
  String.mk (((s.toList.dropWhile isSpaceChar).reverse.dropWhile isSpaceChar).reverse)

/-- `listStarts l pat` is true when `pat` is an initial run of `l`. -/
def listStarts : List Char → List Char → Bool
  | _, [] => true
  | [], _ :: _ => false
  | a :: as, b :: bs => a = b && listStarts as bs

/-- Model of Go `strings.HasPrefix`. -/
def goStartsWith (s pat : String) : Bool :=
  listStarts s.toList pat.toList

/-- Model of `strings.Contains(base, ".")`. -/
def containsChar (s : String) (c : Char) : Bool :=
  s.toList.contains c

/-! ## URL and path models

`fileNameFromURL` in src/main.go calls `url.Parse` and `filepath.Base`.
These Go library functions are modelled here for absolute `http(s)` URLs
without percent-escapes: `url.Parse` fails on ASCII control characters and
otherwise splits off the fragment and query, yielding the path component
that follows the host. -/

def isCtlChar (c : Char) : Bool :=
  c.toNat < 32 || c.toNat = 127

/-- From `rest` (the text after `scheme://`), the path component: from the
first `/` after the host up to the query separator. -/
def pathOfRest (rest : List Char) : List Char :=
  let afterHost := rest.dropWhile (fun c => ¬ (c = '/' || c = '?'))
  match afterHost with
  | '/' :: _ => afterHost.takeWhile (· ≠ '?')
  | _ => []

/-- Model of Go `url.Parse` restricted to what `fileNameFromURL` reads: the
path component of an absolute http(s) URL. `none` models a parse error
(ASCII control character in the URL, or a URL shape outside the model). -/
def urlParsePath (u : String) : Option String :=
  let l := u.toList
  if l.any isCtlChar then none
  else
    let l := l.takeWhile (· ≠ '#')
    if listStarts l ("https://".toList) then
      some (String.mk (pathOfRest (l.drop 8)))
    else if listStarts l ("http://".toList) then
      some (String.mk (pathOfRest (l.drop 7)))
    else none

/-- Model of Go `filepath.Base` (slash-separated paths): `"."` for the empty
path, a single separator when the path is all separators, otherwise the last
element after removing trailing separators (computed on the reversed
character list: drop the trailing separators, then take up to the next
separator). -/
def filepathBase (p : String) : String :=
  if p.toList = [] then "."
  else if p.toList.reverse.dropWhile (· = '/') = [] then "/"
  else String.mk (((p.toList.reverse.dropWhile (· = '/')).takeWhile (· ≠ '/')).reverse)

/-- src/main.go `fileNameFromURL`: parse the URL (empty name on parse
error), take the base of the path, cut at `?`, and append `.jpg` when the
base has no `.`. -/
def fileNameFromURL (u : String) : String :=
  match urlParsePath u with
  | none => ""
  | some p =>
    let base := filepathBase p
    let base := String.mk (base.toList.takeWhile (· ≠ '?'))
    if containsChar base '.' then base else base ++ ".jpg"

/-- src/main.go `firstNonEmpty`: note that `a` is returned untrimmed when
its trim is non-empty, while `b` is returned trimmed. -/
def firstNonEmpty (a b : String) : String :=
  if goTrimSpace a ≠ "" then a else goTrimSpace b

/-- Model of Go `filepath.Join(outDir, name)` for a plain directory and a
plain name (no separator cleaning needed for the claims). -/
def filepathJoin (dir name : String) : String :=
  dir ++ "/" ++ name

/-- Modelled from the spec (section 4.1): the final segment of a path, the
text after the last path separator. -/
def finalSegment (p : String) : String :=
  String.mk ((p.toList.reverse.takeWhile (· ≠ '/')).reverse)

/-- Modelled from the spec (section 4.1), for comparison with
`fileNameFromURL`: the path's final segment, with any query-string suffix
stripped, and with the default image extension appended when the segment
contains no `.` character. -/
def specFileName (p : String) : String :=
  let seg := finalSegment p
  let seg := String.mk (seg.toList.takeWhile (· ≠ '?'))
  if containsChar seg '.' then seg else seg ++ ".jpg"

/-- Modelled from the spec (section 4.1), for comparison with
`firstNonEmpty`: the first non-empty of the two fields, both trimmed. -/
def firstNonEmptyTrimmed (a b : String) : String :=
  if goTrimSpace a ≠ "" then goTrimSpace a else goTrimSpace b

/-! ## Data model (src/main.go type block) -/

/-- src/main.go `imageObject`: `{ Asset string }`. -/
structure ImageObject where
  asset : String
deriving DecidableEq

/-- src/main.go `ad`: hover text, title, copyright and the optional
landscape image (`*imageObject`, `none` models a nil pointer). -/
structure Ad where
  iconHoverText : String
  title : String
  copyright : String
  landscape : Option ImageObject
deriving DecidableEq

/-- src/main.go `adEnvelope`: `{ Ad *ad }`. -/
structure AdEnvelope where
  ad : Option Ad
deriving DecidableEq

/-- src/main.go `spotImage`. -/
structure SpotImage where
  URL : String
  FileName : String
  Title : String
  Copyright : String
deriving DecidableEq

/-! ## Parser (src/main.go `fetchOnce`, lines 97-123)

`fetchOnce`'s JSON decoding is modelled one level up from bytes: the outer
`json.Decode` of the response body either fails (`none`) or yields the list
of items, and each item's inner `json.Unmarshal` of the nested JSON string
either fails (`none`) or yields an `AdEnvelope`. The per-item loop and the
final `dedupe` are translated directly. -/

/-- The body of the item loop in `fetchOnce` (lines 103-122): skip items
whose inner JSON failed to parse, items without an ad or without a
landscape image, and items whose trimmed asset is empty or not `https://`;
otherwise build the descriptor. -/
def envelopeToImage (it : Option AdEnvelope) : Option SpotImage :=
  match it with
  | none => none
  | some env =>
    match env.ad with
    | none => none
    | some a =>
      match a.landscape with
      | none => none
      | some img =>
        let asset := goTrimSpace img.asset
        if asset = "" || !(goStartsWith asset "https://") then none
        else some ⟨asset, fileNameFromURL asset, firstNonEmpty a.iconHoverText a.title, a.copyright⟩

/-- src/main.go `dedupe` (lines 126-140), with the `seen` map made an
explicit accumulator of already-seen URLs. -/
def dedupeGo : List SpotImage → List String → List SpotImage
  | [], _ => []
  | im :: rest, seenUrls =>
    if im.URL = "" then dedupeGo rest seenUrls
    else if im.URL ∈ seenUrls then dedupeGo rest seenUrls
    else im :: dedupeGo rest (im.URL :: seenUrls)

def dedupe (l : List SpotImage) : List SpotImage :=
  dedupeGo l []

/-- Modelled from the spec (section 4.2), for comparison with `dedupe`:
return the same sequence with empty-URL entries removed entirely and every
later occurrence of an already-seen URL removed. -/
def dedupeSpec : List SpotImage → List SpotImage
  | [] => []
  | im :: rest =>
    if im.URL = "" then dedupeSpec rest
    else im :: dedupeSpec (rest.filter (fun j => j.URL ≠ im.URL))
termination_by l => l.length
decreasing_by
· simp [Nat.lt_succ_self]
· exact Nat.lt_succ_of_le (by simpa using List.length_filter_le _ rest)

/-- The parsing tail of `fetchOnce` (lines 97-123): a failed outer decode
fails the whole batch; otherwise each item runs through the loop body and
the result is deduplicated. -/
def parseBatch (decoded : Option (List (Option AdEnvelope))) : Except String (List SpotImage) :=
  match decoded with
  | none => Except.error "json decode error"
  | some items => Except.ok (dedupe (items.filterMap envelopeToImage))

/-! ## Downloader (src/main.go `download`, lines 142-192)

The filesystem is an association list from paths to file sizes. The HTTP
layer is modelled by the response outcome: a transport error, or a status
code with the declared content length (`resp.ContentLength`, `-1` when
undeclared as in Go) and the body outcome — the copy either completes
having written `n` bytes or is interrupted by a copy error after `n`
bytes. -/

def FS : Type := List (String × Nat)

def statFS : FS → String → Option Nat
  | [], _ => none
  | (q, n) :: rest, p => if q = p then some n else statFS rest p

def removeFS : FS → String → FS
  | [], _ => []
  | (q, n) :: rest, p => if q = p then removeFS rest p else (q, n) :: removeFS rest p

/-- Create/overwrite the file at `p` with size `n` (models `os.Create`
followed by the copy having written `n` bytes). -/
def setFS (fs : FS) (p : String) (n : Nat) : FS :=
  (p, n) :: removeFS fs p

inductive Body where
  | complete (n : Nat)
  | interrupted (n : Nat)
deriving DecidableEq

inductive HTTPResp where
  | transportError
  | resp (status : Nat) (contentLength : Int) (body : Body)
deriving DecidableEq

inductive DlError where
  | transport
  | httpStatus (code : Nat)
  | copyError
  | sizeMismatch
deriving DecidableEq

/-- src/main.go `download`: transport error and non-200 status return
before the temporary file exists; the body is streamed to `dst + ".part"`;
a copy error removes the temporary file; when a positive content length
was declared, a size mismatch removes the temporary file; on success the
temporary file is renamed onto `dst`. -/
def download (r : HTTPResp) (dst : String) (fs : FS) : Except DlError Unit × FS :=
  match r with
  | HTTPResp.transportError => (Except.error DlError.transport, fs)
  | HTTPResp.resp status clen body =>
    if status ≠ 200 then (Except.error (DlError.httpStatus status), fs)
    else
      let expected : Option Int := if 0 < clen then some clen else none
      let tmp := dst ++ ".part"
      match body with
      | Body.interrupted n =>
        let fs1 := setFS fs tmp n
        (Except.error DlError.copyError, removeFS fs1 tmp)
      | Body.complete n =>
        let fs1 := setFS fs tmp n
        match expected with
        | some e =>
          if (n : Int) ≠ e then (Except.error DlError.sizeMismatch, removeFS fs1 tmp)
          else (Except.ok (), setFS (removeFS fs1 tmp) dst n)
        | none => (Except.ok (), setFS (removeFS fs1 tmp) dst n)

/-! ## API URL construction (src/main.go `buildAPIURL`, lines 28-43)

`url.Parse` of the base endpoint is modelled as failing exactly on ASCII
control characters and otherwise returning the URL unchanged;
`url.Values.Encode` sorts keys alphabetically, modelled for the five fixed
keys. The error result is `Option String` with `none` for Go's nil
error. -/

def apiBase : String := "https://fd.api.iris.microsoft.com/v4/api/selection"

def urlParseModel (u : String) : Option String :=
  if u.toList.any isCtlChar then none else some u

def encodeQuery (country locale : String) : String :=
  "bcnt=4&country=" ++ country ++ "&fmt=json&locale=" ++ locale ++ "&placement=88000820"

/-- `buildAPIURL` with the parse result of the base URL made explicit, so
that the (dead) parse-failure branch is statable: src/main.go lines 30-32
return `("", nil)` on parse failure. -/
def buildAPIURLWith (parsed : Option String) (country locale : String) : String × Option String :=
  match parsed with
  | none => ("", none)
  | some base => (base ++ "?" ++ encodeQuery country locale, none)

def buildAPIURL (country locale : String) : String × Option String :=
  buildAPIURLWith (urlParseModel apiBase) country locale

/-! ## Poll loop (src/main.go `main`, lines 258-308)

The loop state carries the cross-batch `seen` set, the set of existing
destination paths (the directory contents), the success counter
`totalNew`, and — as instrumentation observing "the Downloader was
invoked" — the list of URLs passed to `download`. Download outcomes are
supplied by an oracle `dlOk`; a successful download creates the
destination file. The fetch results per round are supplied by a function
from the round index. The loop itself is a fuel-indexed recursion: `some
(st, rounds)` models normal termination (exit status 0) after `rounds`
rounds; `none` means fuel ran out before `emptyRounds` reached the
ceiling. -/

def maxEmptyRounds : Nat := 50

structure LoopState where
  seen : List String
  files : List String
  totalNew : Nat
  attempts : List String
deriving DecidableEq

/-- The body of the descriptor loop in `main` (lines 270-296). -/
def processImage (dlOk : String → Bool) (outDir : String) (st : LoopState) (newInRound : Nat)
    (im : SpotImage) : LoopState × Nat :=
  if im.URL ∈ st.seen then (st, newInRound)
  else
    let st1 := { st with seen := im.URL :: st.seen }
    let nm := fileNameFromURL im.URL
    if nm = "" then (st1, newInRound)
    else
      let path := filepathJoin outDir nm
      if path ∈ st1.files then (st1, newInRound)
      else
        let st2 := { st1 with attempts := im.URL :: st1.attempts }
        if dlOk im.URL then
          ({ st2 with files := path :: st2.files, totalNew := st2.totalNew + 1 }, newInRound + 1)
        else (st2, newInRound)

/-- One round of the loop: process every fetched descriptor, counting
successful downloads in `newInRound` (started at 0 each round). -/
def processRound (dlOk : String → Bool) (outDir : String) (imgs : List SpotImage)
    (st : LoopState) : LoopState × Nat :=
  imgs.foldl (fun p im => processImage dlOk outDir p.1 p.2 im) (st, 0)

/-- The `for emptyRounds < maxEmptyRounds` loop of `main`: each round
fetches and processes a batch; a round with zero new downloads increments
`emptyRounds`, a round with at least one resets it to 0. Fuel bounds the
number of rounds; `some (st, rounds)` is normal termination. -/
def runLoop (fetch : Nat → List SpotImage) (dlOk : String → Bool) (outDir : String) :
    Nat → Nat → Nat → LoopState → Option (LoopState × Nat)
  | 0, round, emptyRounds, st =>
    if maxEmptyRounds ≤ emptyRounds then some (st, round) else none
  | Nat.succ fuel1, round, emptyRounds, st =>
    if maxEmptyRounds ≤ emptyRounds then some (st, round)
    else
      let pr := processRound dlOk outDir (fetch round) st
      runLoop fetch dlOk outDir fuel1 (round + 1) (if pr.2 = 0 then emptyRounds + 1 else 0) pr.1

/-! ## Filesystem lemmas -/

theorem statFS_removeFS_self (fs : FS) (p : String) : statFS (removeFS fs p) p = none := by
  induction fs with
  | nil => rfl
  | cons hd tl ih =>
    obtain ⟨q, n⟩ := hd
    by_cases h : q = p
    · simp [removeFS, h, ih]
    · simp [removeFS, statFS, h, ih]

theorem statFS_removeFS_ne (fs : FS) (p q : String) (h : q ≠ p) :
    statFS (removeFS fs p) q = statFS fs q := by
  induction fs with
  | nil => rfl
  | cons hd tl ih =>
    obtain ⟨r, n⟩ := hd
    by_cases hr : r = p
    · subst hr
      simp [removeFS, statFS, Ne.symm h, ih]
    · simp [removeFS, statFS, hr, ih]

theorem statFS_setFS_ne (fs : FS) (p q : String) (n : Nat) (h : q ≠ p) :
    statFS (setFS fs p n) q = statFS fs q := by
  simp [setFS, statFS, Ne.symm h, statFS_removeFS_ne fs p q h]

theorem append_part_ne (dst : String) : dst ++ ".part" ≠ dst := by
  intro h
  have h2 := congrArg String.length h
  rw [String.length_append] at h2
  have h3 : (".part" : String).length = 5 := rfl
  rw [h3] at h2
  omega

/-- C1: on any failure of `download` (transport error, non-200 status, copy
error, size mismatch) the temporary file `dst ++ ".part"` does not exist
after the call (given it did not exist before), and the destination path is
left exactly as it was — in particular a transfer interrupted mid-copy
leaves neither the destination file nor the temporary file behind. -/
theorem c1_download_failure_cleanup (r : HTTPResp) (dst : String) (fs : FS) (e : DlError)
    (hres : (download r dst fs).1 = Except.error e)
    (htmp : statFS fs (dst ++ ".part") = none) :
    statFS (download r dst fs).2 (dst ++ ".part") = none ∧
    statFS (download r dst fs).2 dst = statFS fs dst := by
  have hne : dst ≠ dst ++ ".part" := Ne.symm (append_part_ne dst)
  cases r with
  | transportError => exact ⟨htmp, rfl⟩
  | resp status clen body =>
    by_cases hs : status = 200
    · subst hs
      cases body with
      | interrupted n =>
        refine ⟨?_, ?_⟩
        · simp only [download, ne_eq, not_true_eq_false, if_false]
          exact statFS_removeFS_self _ _
        · simp only [download, ne_eq, not_true_eq_false, if_false]
          rw [statFS_removeFS_ne _ _ _ hne, statFS_setFS_ne _ _ _ _ hne]
      | complete n =>
        by_cases hc : 0 < clen
        · by_cases hn : (n : Int) = clen
          · exfalso
            simp [download, hc, hn] at hres
          · refine ⟨?_, ?_⟩
            · simp only [download, ne_eq, not_true_eq_false, if_false, hc, if_true, hn,
                not_false_eq_true]
              exact statFS_removeFS_self _ _
            · simp only [download, ne_eq, not_true_eq_false, if_false, hc, if_true, hn,
                not_false_eq_true]
              rw [statFS_removeFS_ne _ _ _ hne, statFS_setFS_ne _ _ _ _ hne]
        · exfalso
          simp [download, hc] at hres
    · refine ⟨?_, ?_⟩
      · simp only [download, ne_eq, hs, not_false_eq_true, if_true]
        exact htmp
      · simp only [download, ne_eq, hs, not_false_eq_true, if_true]

/-- Witness for C1 at a concrete interrupted transfer into an empty
filesystem. -/
theorem c1_witness :
    statFS (download (HTTPResp.resp 200 (-1) (Body.interrupted 3)) "a" []).2 ("a" ++ ".part") = none ∧
    statFS (download (HTTPResp.resp 200 (-1) (Body.interrupted 3)) "a" []).2 "a" = statFS [] "a" :=
  c1_download_failure_cleanup (HTTPResp.resp 200 (-1) (Body.interrupted 3)) "a" []
    DlError.copyError (by rfl) (by decide)

/-- C5: when a positive content length is declared and the copied byte
count differs, `download` fails with a size-mismatch error, the temporary
file is removed and the destination is untouched; when no positive content
length is declared, the size check is skipped and the download succeeds
whatever the byte count. -/
theorem c5_size_check (clen : Int) (n : Nat) (dst : String) (fs : FS) :
    (0 < clen → (n : Int) ≠ clen →
      (download (HTTPResp.resp 200 clen (Body.complete n)) dst fs).1 = Except.error DlError.sizeMismatch ∧
      statFS (download (HTTPResp.resp 200 clen (Body.complete n)) dst fs).2 (dst ++ ".part") = none ∧
      statFS (download (HTTPResp.resp 200 clen (Body.complete n)) dst fs).2 dst = statFS fs dst) ∧
    (clen ≤ 0 → (download (HTTPResp.resp 200 clen (Body.complete n)) dst fs).1 = Except.ok ()) := by
  have hne : dst ≠ dst ++ ".part" := Ne.symm (append_part_ne dst)
  constructor
  · intro hc hn
    refine ⟨?_, ?_, ?_⟩
    · simp [download, hc, hn]
    · simp only [download, ne_eq, not_true_eq_false, if_false, hc, if_true, hn,
        not_false_eq_true]
      exact statFS_removeFS_self _ _
    · simp only [download, ne_eq, not_true_eq_false, if_false, hc, if_true, hn,
        not_false_eq_true]
      rw [statFS_removeFS_ne _ _ _ hne, statFS_setFS_ne _ _ _ _ hne]
  · intro hc
    have hc2 : ¬ (0 < clen) := by omega
    simp [download, hc2]

/-- Witness for C5 at the spec's concrete scenario: declared length 1000,
body of 900 bytes. -/
theorem c5_witness :
    (download (HTTPResp.resp 200 1000 (Body.complete 900)) "img.jpg" []).1 = Except.error DlError.sizeMismatch ∧
    statFS (download (HTTPResp.resp 200 1000 (Body.complete 900)) "img.jpg" []).2 ("img.jpg" ++ ".part") = none ∧
    statFS (download (HTTPResp.resp 200 1000 (Body.complete 900)) "img.jpg" []).2 "img.jpg" = statFS [] "img.jpg" :=
  (c5_size_check 1000 900 "img.jpg" []).1 (by decide) (by decide)

/-! ## Deduplicator lemmas -/

theorem dedupeGo_sublist (l : List SpotImage) :
    ∀ seenUrls : List String, List.Sublist (dedupeGo l seenUrls) l := by
  induction l with
  | nil => intro s; simp [dedupeGo]
  | cons im rest ih =>
    intro s
    by_cases h1 : im.URL = ""
    · simp only [dedupeGo, if_pos h1]
      exact List.Sublist.cons _ (ih s)
    · by_cases h2 : im.URL ∈ s
      · simp only [dedupeGo, if_neg h1, if_pos h2]
        exact List.Sublist.cons _ (ih s)
      · simp only [dedupeGo, if_neg h1, if_neg h2]
        exact List.Sublist.cons₂ _ (ih _)

theorem dedupeGo_not_mem_seen (l : List SpotImage) :
    ∀ (s : List String) (x : SpotImage), x ∈ dedupeGo l s → x.URL ∉ s := by
  induction l with
  | nil => intro s x hx; simp [dedupeGo] at hx
  | cons im rest ih =>
    intro s x hx
    by_cases h1 : im.URL = ""
    · simp only [dedupeGo, if_pos h1] at hx
      exact ih s x hx
    · by_cases h2 : im.URL ∈ s
      · simp only [dedupeGo, if_neg h1, if_pos h2] at hx
        exact ih s x hx
      · simp only [dedupeGo, if_neg h1, if_neg h2] at hx
        rcases List.mem_cons.mp hx with heq | htail
        · subst heq; exact h2
        · intro hmem
          exact ih _ x htail (List.mem_cons_of_mem _ hmem)

theorem dedupeGo_pairwise (l : List SpotImage) :
    ∀ s : List String, List.Pairwise (fun a b => a.URL ≠ b.URL) (dedupeGo l s) := by
  induction l with
  | nil => intro s; simp [dedupeGo]
  | cons im rest ih =>
    intro s
    by_cases h1 : im.URL = ""
    · simp only [dedupeGo, if_pos h1]; exact ih s
    · by_cases h2 : im.URL ∈ s
      · simp only [dedupeGo, if_neg h1, if_pos h2]; exact ih s
      · simp only [dedupeGo, if_neg h1, if_neg h2]
        refine List.Pairwise.cons ?_ (ih _)
        intro b hb heq
        have hnm := dedupeGo_not_mem_seen rest _ b hb
        apply hnm
        rw [← heq]
        exact List.mem_cons_self _ _

theorem dedupeGo_eq_spec (l : List SpotImage) :
    ∀ s : List String, dedupeGo l s = dedupeSpec (l.filter (fun x => decide (x.URL ∉ s))) := by
  induction l with
  | nil => intro s; simp [dedupeGo, dedupeSpec]
  | cons im rest ih =>
    intro s
    have hbody : dedupeGo (im :: rest) s =
        (if im.URL = "" then dedupeGo rest s
         else if im.URL ∈ s then dedupeGo rest s
         else im :: dedupeGo rest (im.URL :: s)) := rfl
    rw [hbody, List.filter_cons]
    by_cases h2 : im.URL ∈ s
    · have hf : ¬ (decide (im.URL ∉ s) = true) := by simp [h2]
      rw [if_neg hf]
      by_cases h1 : im.URL = ""
      · rw [if_pos h1]; exact ih s
      · rw [if_neg h1, if_pos h2]; exact ih s
    · have hf : decide (im.URL ∉ s) = true := by simp [h2]
      rw [if_pos hf]
      by_cases h1 : im.URL = ""
      · rw [if_pos h1]
        rw [show dedupeSpec (im :: List.filter (fun x => decide (x.URL ∉ s)) rest)
              = dedupeSpec (List.filter (fun x => decide (x.URL ∉ s)) rest) from by
            simp only [dedupeSpec]
            rw [if_pos h1]]
        exact ih s
      · rw [if_neg h1, if_neg h2]
        rw [show dedupeSpec (im :: List.filter (fun x => decide (x.URL ∉ s)) rest)
              = im :: dedupeSpec ((List.filter (fun x => decide (x.URL ∉ s)) rest).filter
                  (fun j => decide (j.URL ≠ im.URL))) from by
            simp only [dedupeSpec]
            rw [if_neg h1]]
        rw [ih (im.URL :: s)]
        congr 1
        congr 1
        rw [List.filter_filter]
        apply List.filter_congr
        intro j _
        by_cases ha : j.URL ∈ s <;> by_cases hb : j.URL = im.URL <;>
          simp [ha, hb, List.mem_cons]

theorem dedupe_eq_spec (l : List SpotImage) : dedupe l = dedupeSpec l := by
  rw [dedupe, dedupeGo_eq_spec l []]
  congr 1
  simp

/-- C4: `dedupe` returns its input with empty-URL entries removed and later
occurrences of already-seen URLs removed (the spec's description, as
`dedupeSpec`), the output has pairwise distinct URLs, and it is a sublist
of the input (relative order of first occurrences preserved). -/
theorem c4_dedupe_correct (l : List SpotImage) :
    dedupe l = dedupeSpec l ∧
    List.Pairwise (fun a b => a.URL ≠ b.URL) (dedupe l) ∧
    List.Sublist (dedupe l) l :=
  ⟨dedupe_eq_spec l, dedupeGo_pairwise l [], dedupeGo_sublist l []⟩

/-! ## Parser lemmas -/

theorem envelopeToImage_eq_some (it : Option AdEnvelope) (im : SpotImage)
    (h : envelopeToImage it = some im) :
    ∃ env a l2, it = some env ∧ env.ad = some a ∧ a.landscape = some l2 ∧
      goTrimSpace l2.asset ≠ "" ∧ goStartsWith (goTrimSpace l2.asset) "https://" = true ∧
      im = ⟨goTrimSpace l2.asset, fileNameFromURL (goTrimSpace l2.asset),
            firstNonEmpty a.iconHoverText a.title, a.copyright⟩ := by
  cases it with
  | none => simp [envelopeToImage] at h
  | some env =>
    obtain ⟨ado⟩ := env
    cases ado with
    | none => simp [envelopeToImage] at h
    | some a =>
      obtain ⟨ht, tt, cp, lo⟩ := a
      cases lo with
      | none => simp [envelopeToImage] at h
      | some l2 =>
        simp only [envelopeToImage] at h
        by_cases hc1 : goTrimSpace l2.asset = ""
        · simp [hc1] at h
        · by_cases hc2 : goStartsWith (goTrimSpace l2.asset) "https://" = true
          · rw [if_neg (by simp [hc1, hc2])] at h
            exact ⟨⟨some ⟨ht, tt, cp, some l2⟩⟩, ⟨ht, tt, cp, some l2⟩, l2, rfl, rfl, rfl,
              hc1, hc2, (Option.some.inj h).symm⟩
          · rw [if_pos (by simp [Bool.not_eq_true] at hc2; simp [hc2])] at h
            exact absurd h (by simp)

theorem goStartsWith_https_ne_empty (s : String) (h : goStartsWith s "https://" = true) :
    s ≠ "" := by
  intro he
  subst he
  exact absurd h (by decide)

/-- C3: every descriptor in a successfully parsed batch has a non-empty
`https://` source URL, and an envelope yields a descriptor only if its ad
is non-null, its landscape asset is non-null, and the trimmed asset is
non-empty and starts with the secure scheme (the descriptor's URL being
that trimmed asset). -/
theorem c3_landscape_filter (items : List (Option AdEnvelope)) (out : List SpotImage)
    (h : parseBatch (some items) = Except.ok out) :
    (∀ im ∈ out, im.URL ≠ "" ∧ goStartsWith im.URL "https://" = true) ∧
    (∀ (it : Option AdEnvelope) (im2 : SpotImage), envelopeToImage it = some im2 →
      ∃ env a l2, it = some env ∧ env.ad = some a ∧ a.landscape = some l2 ∧
        goTrimSpace l2.asset ≠ "" ∧ goStartsWith (goTrimSpace l2.asset) "https://" = true ∧
        im2.URL = goTrimSpace l2.asset) := by
  have hout : (Except.ok (dedupe (items.filterMap envelopeToImage)) :
      Except String (List SpotImage)) = Except.ok out := h
  have hout2 : dedupe (items.filterMap envelopeToImage) = out := by
    injection hout
  constructor
  · intro im hm
    rw [← hout2] at hm
    have hm2 : im ∈ items.filterMap envelopeToImage :=
      (dedupeGo_sublist _ []).subset hm
    obtain ⟨it, _, hsome⟩ := List.mem_filterMap.mp hm2
    obtain ⟨env, a, l2, _, _, _, hne, hpre, him⟩ := envelopeToImage_eq_some it im hsome
    subst him
    exact ⟨hne, hpre⟩
  · intro it im2 hsome
    obtain ⟨env, a, l2, h1, h2, h3, hne, hpre, him⟩ := envelopeToImage_eq_some it im2 hsome
    exact ⟨env, a, l2, h1, h2, h3, hne, hpre, by rw [him]⟩

/-- Witness for C3 at a concrete one-item batch. -/
theorem c3_witness :
    (∀ im ∈ [(⟨"https://e/f.jpg", "f.jpg", "h", "c"⟩ : SpotImage)],
      im.URL ≠ "" ∧ goStartsWith im.URL "https://" = true) ∧
    (∀ (it : Option AdEnvelope) (im2 : SpotImage), envelopeToImage it = some im2 →
      ∃ env a l2, it = some env ∧ env.ad = some a ∧ a.landscape = some l2 ∧
        goTrimSpace l2.asset ≠ "" ∧ goStartsWith (goTrimSpace l2.asset) "https://" = true ∧
        im2.URL = goTrimSpace l2.asset) :=
  c3_landscape_filter [some ⟨some ⟨"h", "t", "c", some ⟨"https://e/f.jpg"⟩⟩⟩]
    [⟨"https://e/f.jpg", "f.jpg", "h", "c"⟩] (by rfl)

/-- C6: a failed outer JSON decode fails the whole batch with an error,
while a single inner item whose envelope fails to parse is skipped with
the remaining items processed exactly as if it were absent. -/
theorem c6_batch_vs_item_failure :
    parseBatch none = Except.error "json decode error" ∧
    ∀ (pre post : List (Option AdEnvelope)),
      parseBatch (some (pre ++ none :: post)) = parseBatch (some (pre ++ post)) := by
  refine ⟨rfl, ?_⟩
  intro pre post
  have hnone : envelopeToImage none = none := rfl
  simp [parseBatch, List.filterMap_append, List.filterMap_cons, hnone]

/-! ## Poll-loop lemmas -/

theorem runLoop_zero (fetch : Nat → List SpotImage) (dlOk : String → Bool) (outDir : String)
    (round er : Nat) (st : LoopState) :
    runLoop fetch dlOk outDir 0 round er st =
      if maxEmptyRounds ≤ er then some (st, round) else none := rfl

theorem runLoop_succ (fetch : Nat → List SpotImage) (dlOk : String → Bool) (outDir : String)
    (fuel1 round er : Nat) (st : LoopState) :
    runLoop fetch dlOk outDir (fuel1 + 1) round er st =
      if maxEmptyRounds ≤ er then some (st, round)
      else
        runLoop fetch dlOk outDir fuel1 (round + 1)
          (if (processRound dlOk outDir (fetch round) st).2 = 0 then er + 1 else 0)
          (processRound dlOk outDir (fetch round) st).1 := rfl

theorem processImage_seen (dlOk : String → Bool) (outDir : String) (st : LoopState) (n : Nat)
    (im : SpotImage) (h : im.URL ∈ st.seen) :
    processImage dlOk outDir st n im = (st, n) := by
  simp [processImage, h]

theorem processRound_allSeen (dlOk : String → Bool) (outDir : String) (imgs : List SpotImage) :
    ∀ (st : LoopState) (n : Nat), (∀ im ∈ imgs, im.URL ∈ st.seen) →
      imgs.foldl (fun p im => processImage dlOk outDir p.1 p.2 im) (st, n) = (st, n) := by
  induction imgs with
  | nil => intro st n _; rfl
  | cons im rest ih =>
    intro st n h
    rw [List.foldl_cons]
    rw [show processImage dlOk outDir (st, n).1 (st, n).2 im = (st, n) from
      processImage_seen dlOk outDir st n im (h im (List.mem_cons_self _ _))]
    exact ih st n (fun x hx => h x (List.mem_cons_of_mem _ hx))

theorem runLoop_allSeen (fetch : Nat → List SpotImage) (dlOk : String → Bool) (outDir : String)
    (st : LoopState) (hseen : ∀ (k : Nat), ∀ im ∈ fetch k, im.URL ∈ st.seen) :
    ∀ (k er round : Nat), er + k = maxEmptyRounds →
      runLoop fetch dlOk outDir k round er st = some (st, round + k) := by
  intro k
  induction k with
  | zero =>
    intro er round he
    rw [runLoop_zero, if_pos (by omega : maxEmptyRounds ≤ er)]
    rfl
  | succ k1 ih =>
    intro er round he
    rw [runLoop_succ, if_neg (by omega : ¬ maxEmptyRounds ≤ er)]
    have hr : processRound dlOk outDir (fetch round) st = (st, 0) :=
      processRound_allSeen dlOk outDir (fetch round) st 0 (hseen round)
    rw [hr]
    simp only [if_true]
    rw [ih (er + 1) (round + 1) (by omega)]
    have harr : round + 1 + k1 = round + (k1 + 1) := by omega
    rw [harr]

theorem runLoop_noNew (fetch : Nat → List SpotImage) (dlOk : String → Bool) (outDir : String)
    (hzero : ∀ (round : Nat) (st : LoopState),
      (processRound dlOk outDir (fetch round) st).2 = 0) :
    ∀ (k er round : Nat) (st : LoopState), er + k = maxEmptyRounds →
      ∃ stF : LoopState, runLoop fetch dlOk outDir k round er st = some (stF, round + k) := by
  intro k
  induction k with
  | zero =>
    intro er round st he
    refine ⟨st, ?_⟩
    rw [runLoop_zero, if_pos (by omega : maxEmptyRounds ≤ er)]
    rfl
  | succ k1 ih =>
    intro er round st he
    obtain ⟨stF, hF⟩ :=
      ih (er + 1) (round + 1) (processRound dlOk outDir (fetch round) st).1 (by omega)
    refine ⟨stF, ?_⟩
    rw [runLoop_succ, if_neg (by omega : ¬ maxEmptyRounds ≤ er), if_pos (hzero round st), hF]
    have harr : round + 1 + k1 = round + (k1 + 1) := by omega
    rw [harr]

/-- C2: when no round can produce a new successful download, the poll loop
terminates normally (success exit) after exactly `maxEmptyRounds` (50)
rounds; with a Fetcher stub whose every descriptor was already seen, it
does so with its state unchanged; and any round with at least one
successful download continues with the consecutive-empty counter reset
to 0. -/
theorem c2_stopping_rule (fetch : Nat → List SpotImage) (dlOk : String → Bool) (outDir : String) :
    (∀ st0 : LoopState,
      (∀ (round : Nat) (st : LoopState),
        (processRound dlOk outDir (fetch round) st).2 = 0) →
      ∃ stF : LoopState,
        runLoop fetch dlOk outDir maxEmptyRounds 0 0 st0 = some (stF, maxEmptyRounds)) ∧
    (∀ (seenInit files0 : List String) (tn : Nat) (att : List String),
      (∀ (k : Nat), ∀ im ∈ fetch k, im.URL ∈ seenInit) →
      runLoop fetch dlOk outDir maxEmptyRounds 0 0 ⟨seenInit, files0, tn, att⟩ =
        some (⟨seenInit, files0, tn, att⟩, maxEmptyRounds)) ∧
    (∀ (fuel round er : Nat) (st : LoopState), er < maxEmptyRounds →
      (processRound dlOk outDir (fetch round) st).2 ≠ 0 →
      runLoop fetch dlOk outDir (fuel + 1) round er st =
        runLoop fetch dlOk outDir fuel (round + 1) 0 (processRound dlOk outDir (fetch round) st).1) := by
  refine ⟨?_, ?_, ?_⟩
  · intro st0 hzero
    have := runLoop_noNew fetch dlOk outDir hzero maxEmptyRounds 0 0 st0 (by omega)
    simpa using this
  · intro seenInit files0 tn att hseen
    have := runLoop_allSeen fetch dlOk outDir ⟨seenInit, files0, tn, att⟩ hseen
      maxEmptyRounds 0 0 (by omega)
    simpa using this
  · intro fuel round er st her hnz
    rw [runLoop_succ, if_neg (by omega : ¬ maxEmptyRounds ≤ er)]
    rw [if_neg hnz]

/-- Witness for C2 with a fetch stub returning one already-seen URL every
round. -/
theorem c2_witness :
    runLoop (fun _ => [⟨"u", "", "", ""⟩]) (fun _ => true) "o" maxEmptyRounds 0 0
        ⟨["u"], [], 0, []⟩ =
      some (⟨["u"], [], 0, []⟩, maxEmptyRounds) :=
  (c2_stopping_rule (fun _ => [⟨"u", "", "", ""⟩]) (fun _ => true) "o").2.1 ["u"] [] 0 []
    (fun k => by decide)

theorem processImage_skip (dlOk : String → Bool) (outDir : String) (st : LoopState) (n : Nat)
    (im : SpotImage)
    (hcond : fileNameFromURL im.URL = "" ∨
      filepathJoin outDir (fileNameFromURL im.URL) ∈ st.files) :
    (processImage dlOk outDir st n im).1.files = st.files ∧
    (processImage dlOk outDir st n im).1.totalNew = st.totalNew ∧
    (processImage dlOk outDir st n im).1.attempts = st.attempts ∧
    (processImage dlOk outDir st n im).2 = n := by
  by_cases h1 : im.URL ∈ st.seen
  · simp [processImage, h1]
  · rcases hcond with hc | hc
    · simp [processImage, h1, hc]
    · by_cases h2 : fileNameFromURL im.URL = ""
      · simp [processImage, h1, h2]
      · simp [processImage, h1, h2, hc]

theorem foldl_processImage_skip (dlOk : String → Bool) (outDir : String)
    (imgs : List SpotImage) :
    ∀ (st : LoopState) (n : Nat),
      (∀ im ∈ imgs, fileNameFromURL im.URL = "" ∨
        filepathJoin outDir (fileNameFromURL im.URL) ∈ st.files) →
      (imgs.foldl (fun p im => processImage dlOk outDir p.1 p.2 im) (st, n)).1.files = st.files ∧
      (imgs.foldl (fun p im => processImage dlOk outDir p.1 p.2 im) (st, n)).1.totalNew = st.totalNew ∧
      (imgs.foldl (fun p im => processImage dlOk outDir p.1 p.2 im) (st, n)).1.attempts = st.attempts ∧
      (imgs.foldl (fun p im => processImage dlOk outDir p.1 p.2 im) (st, n)).2 = n := by
  induction imgs with
  | nil => intro st n _; exact ⟨rfl, rfl, rfl, rfl⟩
  | cons im rest ih =>
    intro st n h
    obtain ⟨hf, ht, ha, hn⟩ := processImage_skip dlOk outDir st n im (h im (List.mem_cons_self _ _))
    have h2 : ∀ im2 ∈ rest, fileNameFromURL im2.URL = "" ∨
        filepathJoin outDir (fileNameFromURL im2.URL) ∈ (processImage dlOk outDir st n im).1.files := by
      intro im2 hm
      rcases h im2 (List.mem_cons_of_mem _ hm) with hx | hx
      · exact Or.inl hx
      · exact Or.inr (by rw [hf]; exact hx)
    have hres := ih (processImage dlOk outDir st n im).1 (processImage dlOk outDir st n im).2 h2
    exact ⟨hres.1.trans hf, hres.2.1.trans ht, hres.2.2.1.trans ha, hres.2.2.2.trans hn⟩

theorem processRound_skip (dlOk : String → Bool) (outDir : String) (imgs : List SpotImage)
    (st : LoopState)
    (hcond : ∀ im ∈ imgs, fileNameFromURL im.URL = "" ∨
      filepathJoin outDir (fileNameFromURL im.URL) ∈ st.files) :
    (processRound dlOk outDir imgs st).1.files = st.files ∧
    (processRound dlOk outDir imgs st).1.totalNew = st.totalNew ∧
    (processRound dlOk outDir imgs st).1.attempts = st.attempts ∧
    (processRound dlOk outDir imgs st).2 = 0 :=
  foldl_processImage_skip dlOk outDir imgs st 0 hcond

theorem runLoop_allExisting (fetch : Nat → List SpotImage) (dlOk : String → Bool)
    (outDir : String) :
    ∀ (k er round : Nat) (st : LoopState), er + k = maxEmptyRounds →
      (∀ (r2 : Nat), ∀ im ∈ fetch r2, fileNameFromURL im.URL = "" ∨
        filepathJoin outDir (fileNameFromURL im.URL) ∈ st.files) →
      ∃ st2 : LoopState, runLoop fetch dlOk outDir k round er st = some (st2, round + k) ∧
        st2.files = st.files ∧ st2.totalNew = st.totalNew ∧ st2.attempts = st.attempts := by
  intro k
  induction k with
  | zero =>
    intro er round st he _
    refine ⟨st, ?_, rfl, rfl, rfl⟩
    rw [runLoop_zero, if_pos (by omega : maxEmptyRounds ≤ er)]
    rfl
  | succ k1 ih =>
    intro er round st he hcond
    rw [runLoop_succ, if_neg (by omega : ¬ maxEmptyRounds ≤ er)]
    obtain ⟨hf, ht, ha, hn⟩ := processRound_skip dlOk outDir (fetch round) st (hcond round)
    rw [if_pos hn]
    have hcond2 : ∀ (r2 : Nat), ∀ im ∈ fetch r2, fileNameFromURL im.URL = "" ∨
        filepathJoin outDir (fileNameFromURL im.URL) ∈
          (processRound dlOk outDir (fetch round) st).1.files := by
      intro r2 im hm
      rcases hcond r2 im hm with hx | hx
      · exact Or.inl hx
      · exact Or.inr (by rw [hf]; exact hx)
    obtain ⟨st2, hrun, h2f, h2t, h2a⟩ :=
      ih (er + 1) (round + 1) (processRound dlOk outDir (fetch round) st).1 (by omega) hcond2
    refine ⟨st2, ?_, h2f.trans hf, h2t.trans ht, h2a.trans ha⟩
    rw [hrun]
    have harr : round + 1 + k1 = round + (k1 + 1) := by omega
    rw [harr]

/-- C7: a descriptor whose destination path already exists is skipped
without invoking the Downloader (only the seen set changes, the attempts
instrumentation is untouched); consequently a run against a directory
already containing every fetched descriptor's file terminates normally
with zero new downloads and zero Downloader invocations. -/
theorem c7_existing_skip (fetch : Nat → List SpotImage) (dlOk : String → Bool)
    (outDir : String) :
    (∀ (st : LoopState) (n : Nat) (im : SpotImage),
      im.URL ∉ st.seen → fileNameFromURL im.URL ≠ "" →
      filepathJoin outDir (fileNameFromURL im.URL) ∈ st.files →
      processImage dlOk outDir st n im = ({ st with seen := im.URL :: st.seen }, n)) ∧
    (∀ files0 : List String,
      (∀ (k : Nat), ∀ im ∈ fetch k, fileNameFromURL im.URL = "" ∨
        filepathJoin outDir (fileNameFromURL im.URL) ∈ files0) →
      ∃ seenF : List String,
        runLoop fetch dlOk outDir maxEmptyRounds 0 0 ⟨[], files0, 0, []⟩ =
          some (⟨seenF, files0, 0, []⟩, maxEmptyRounds)) := by
  constructor
  · intro st n im h1 h2 h3
    simp [processImage, h1, h2, h3]
  · intro files0 hcond
    obtain ⟨st2, hrun, hf, ht, ha⟩ := runLoop_allExisting fetch dlOk outDir maxEmptyRounds 0 0
      ⟨[], files0, 0, []⟩ (by omega) (by simpa using hcond)
    refine ⟨st2.seen, ?_⟩
    have hst : st2 = ⟨st2.seen, files0, 0, []⟩ := by
      obtain ⟨s2, f2, t2, a2⟩ := st2
      simp only at hf ht ha
      simp [hf, ht, ha]
    rw [← hst]
    simpa using hrun

/-- Witness for C7: one fetched descriptor whose file is already present. -/
theorem c7_witness :
    ∃ seenF : List String,
      runLoop (fun _ => [⟨"https://e/f.jpg", "", "", ""⟩]) (fun _ => true) "o"
          maxEmptyRounds 0 0 ⟨[], ["o/f.jpg"], 0, []⟩ =
        some (⟨seenF, ["o/f.jpg"], 0, []⟩, maxEmptyRounds) :=
  (c7_existing_skip (fun _ => [⟨"https://e/f.jpg", "", "", ""⟩]) (fun _ => true) "o").2
    ["o/f.jpg"] (fun k => by decide)

/-! ## File-name derivation (C8) -/

theorem filepathBase_eq_finalSegment (p : String) (h : finalSegment p ≠ "") :
    filepathBase p = finalSegment p := by
  rcases hrev : p.toList.reverse with _ | ⟨c, t⟩
  · exfalso
    apply h
    unfold finalSegment
    rw [hrev]
    rfl
  · by_cases hc : c = '/'
    · exfalso
      apply h
      unfold finalSegment
      rw [hrev, hc]
      simp
    · have hl : p.toList ≠ [] := by
        intro h0
        rw [h0] at hrev
        simp at hrev
      have hdrop : p.toList.reverse.dropWhile (· = '/') = c :: t := by
        rw [hrev, List.dropWhile_cons, if_neg (by simp [hc])]
      unfold filepathBase finalSegment
      rw [if_neg hl, hdrop, if_neg (List.cons_ne_nil c t), hrev]

/-- C8 counterexample: `https://example.com` is an accepted asset URL (it
passes the trim/secure-scheme filter) and parses to the empty path; the
claim's derivation — final segment `""`, no dot, default extension
appended — yields `".jpg"`, but `fileNameFromURL` yields `"."` (the
behavior of Go `filepath.Base` on an empty path), and the two differ. -/
theorem c8_counterexample :
    goStartsWith (goTrimSpace "https://example.com") "https://" = true ∧
    urlParsePath "https://example.com" = some "" ∧
    fileNameFromURL "https://example.com" = "." ∧
    specFileName "" = ".jpg" ∧
    ("." : String) ≠ ".jpg" := by decide

/-- C8 (amended): for every URL the model parses to a path whose final
segment is non-empty, `fileNameFromURL` returns exactly the spec's
derivation (final path segment, query suffix stripped, default `.jpg`
extension appended when the segment contains no dot); in particular the
spec's concrete scenario holds. -/
theorem c8_fileName_derivation (u p : String) (hp : urlParsePath u = some p)
    (hseg : finalSegment p ≠ "") :
    fileNameFromURL u = specFileName p ∧
    fileNameFromURL "https://example.com/img123.jpg?foo=1" = "img123.jpg" := by
  constructor
  · have hred : fileNameFromURL u =
        (if containsChar (String.mk ((filepathBase p).toList.takeWhile (· ≠ '?'))) '.'
          then String.mk ((filepathBase p).toList.takeWhile (· ≠ '?'))
          else String.mk ((filepathBase p).toList.takeWhile (· ≠ '?')) ++ ".jpg") := by
      unfold fileNameFromURL
      rw [hp]
    rw [hred, filepathBase_eq_finalSegment p hseg]
    rfl
  · decide

/-- Witness for C8 at the spec's concrete asset URL. -/
theorem c8_witness :
    fileNameFromURL "https://example.com/img123.jpg?foo=1" = specFileName "/img123.jpg" ∧
    fileNameFromURL "https://example.com/img123.jpg?foo=1" = "img123.jpg" :=
  c8_fileName_derivation "https://example.com/img123.jpg?foo=1" "/img123.jpg"
    (by decide) (by decide)

/-! ## Title and copyright derivation (C9) -/

/-- C9 counterexample: for an envelope whose hover text is `" x "`, the
produced descriptor's title is `" x "` (the hover text untrimmed), while
the claim's derivation — first non-empty of the two fields, both trimmed —
yields `"x"`, and the two differ. -/
theorem c9_counterexample :
    (envelopeToImage (some ⟨some ⟨" x ", "t", "c", some ⟨"https://e/f.jpg"⟩⟩⟩)).map
        SpotImage.Title = some " x " ∧
    firstNonEmptyTrimmed " x " "t" = "x" ∧
    (" x " : String) ≠ "x" := by decide

/-- C9 (amended): for every envelope yielding a descriptor, the title is
the hover-text field returned verbatim when its trim is non-empty, and
otherwise the trimmed title field; the copyright is the copyright field
verbatim. -/
theorem c9_title_copyright (env : AdEnvelope) (a : Ad) (im : SpotImage)
    (ha : env.ad = some a) (h : envelopeToImage (some env) = some im) :
    im.Title = (if goTrimSpace a.iconHoverText ≠ "" then a.iconHoverText
                else goTrimSpace a.title) ∧
    im.Copyright = a.copyright := by
  obtain ⟨env2, a2, l2, he, ha2, hl, hne, hpre, him⟩ := envelopeToImage_eq_some (some env) im h
  have henv : env = env2 := Option.some.inj he
  rw [← henv] at ha2
  rw [ha2] at ha
  have haa : a2 = a := Option.some.inj ha
  subst haa
  rw [him]
  exact ⟨rfl, rfl⟩

/-- Witness for C9's amended statement at a concrete envelope. -/
theorem c9_witness :
    (⟨"https://e/f.jpg", "f.jpg", " x ", "c"⟩ : SpotImage).Title =
      (if goTrimSpace " x " ≠ "" then " x " else goTrimSpace "t") ∧
    (⟨"https://e/f.jpg", "f.jpg", " x ", "c"⟩ : SpotImage).Copyright = "c" :=
  c9_title_copyright ⟨some ⟨" x ", "t", "c", some ⟨"https://e/f.jpg"⟩⟩⟩
    ⟨" x ", "t", "c", some ⟨"https://e/f.jpg"⟩⟩ ⟨"https://e/f.jpg", "f.jpg", " x ", "c"⟩
    rfl (by decide)

/-! ## API URL error behavior (C10) -/

/-- C10: `buildAPIURL` never reports an error — the error component of its
result is always nil — and its URL-parse-failure branch returns the empty
string together with a nil error, so no caller can observe a failure. -/
theorem c10_buildAPIURL_no_error (country locale : String) :
    (buildAPIURL country locale).2 = none ∧
    buildAPIURLWith none country locale = ("", none) :=
  ⟨rfl, rfl⟩

end SpotlightDL
